import Mathlib

/-!
Verification development for the advanced IK/FK rigging system.

The JavaScript sources are embedded shallowly over the real numbers:
JS doubles become `ℝ`, JS objects become structures, the string-keyed
rotation dictionaries become total functions `String → ℝ` (a missing key
reads as `0`, matching the source's `rotations[j] || 0`), and the
object-graph of `Joint` instances becomes a heap `Nat → JointObj`.
Unbounded `while` walks over parent links are given explicit fuel; the
real data is an acyclic tree, where any sufficiently large fuel agrees
with the source. `Math.random()` is modelled as an explicit stream
parameter. Fallible code (`throw`, JS `TypeError` on a null member
access) returns `Except`.
-/

/-- A 2D point / vector, as used throughout the solvers (`{x, y}`). -/
structure Pt where
  x : ℝ
  y : ℝ

/-- Math.hypot(x, y). -/
noncomputable def hypot (x y : ℝ) : ℝ := Real.sqrt (x * x + y * y)

/-- AdvancedIKSolver.d2r — degrees to radians. -/
noncomputable def d2r (d : ℝ) : ℝ := d * Real.pi / 180

/-- AdvancedIKSolver.r2d — radians to degrees. -/
noncomputable def r2d (r : ℝ) : ℝ := r * 180 / Real.pi

/-- MathUtils.clamp / AdvancedIKSolver.clamp:
`Math.max(min, Math.min(max, v))`. -/
noncomputable def clampR (v mn mx : ℝ) : ℝ := max mn (min mx v)

/-- MathUtils.lerp: `a + (b - a) * t`. -/
def lerp (a b t : ℝ) : ℝ := a + (b - a) * t

/-- Round toward zero, as JS coerces in its `%` (remainder) operator:
truncated division. -/
noncomputable def rtz (x : ℝ) : ℤ := if 0 ≤ x then ⌊x⌋ else ⌈x⌉

/-- The JS remainder `a % b` on finite doubles (sign follows the dividend):
`a - b * trunc(a / b)`. -/
noncomputable def jsRem (a b : ℝ) : ℝ := a - b * rtz (a / b)

/-- AdvancedIKSolver.normA: `((a % 360) + 540) % 360 - 180`. -/
noncomputable def normA (a : ℝ) : ℝ := jsRem (jsRem a 360 + 540) 360 - 180

/-- Math.atan2(y, x). -/
noncomputable def atan2 (y x : ℝ) : ℝ :=
  if 0 < x then Real.arctan (y / x)
  else if x < 0 then
    (if 0 ≤ y then Real.arctan (y / x) + Real.pi else Real.arctan (y / x) - Real.pi)
  else
    (if 0 < y then Real.pi / 2 else if y < 0 then -(Real.pi / 2) else 0)

/-! ## Skeleton data model (Bitruvius format, `BITRUVIUS_DATA`) -/

/-- One entry of `JOINT_DEFS`: parent link (null for the root sentinel)
and local pivot offset. -/
structure JointDef where
  parent : Option String
  pivot : ℝ × ℝ

/-- One entry of `IK_CHAINS`: ordered joint list plus tuning parameters.
`none` models an absent (undefined) field. -/
structure ChainDef where
  joints : List String
  stretchRatio : Option ℝ
  curveStrength : Option ℝ

/-- One entry of `JOINT_LIMITS` (degrees). -/
structure Limits where
  min : ℝ
  max : ℝ

/-- The skeleton data handed to `AdvancedIKSolver` (`this.data`);
lookups into the JS dictionaries return `Option`. -/
structure RigData where
  JOINT_DEFS : String → Option JointDef
  IK_CHAINS : String → Option ChainDef
  JOINT_LIMITS : String → Option Limits

/-- JS `x || dflt` on an optional numeric field: `undefined` and `0` are
falsy and select the default. -/
noncomputable def orDefault (o : Option ℝ) (dflt : ℝ) : ℝ :=
  match o with
  | none => dflt
  | some v => if v = 0 then dflt else v

/-- The parent of `cur` in the skeleton: `JOINT_DEFS[cur]?.parent`. -/
def parentOf (defs : String → Option JointDef) (cur : String) : Option String :=
  (defs cur).bind (fun d => d.parent)

/-- The ancestor path built by `computeWorld`'s `while (cur)` loop:
root sentinel first, the joint itself last.  The source walks parent
links without a bound; `fuel` caps the walk (the skeleton is an acyclic
tree, so any fuel at least the tree depth agrees with the source). -/
def ancestorPath (defs : String → Option JointDef) : ℕ → Option String → List String
  | _, none => []
  | 0, some _ => []
  | fuel + 1, some cur => ancestorPath defs fuel (parentOf defs cur) ++ [cur]

/-- The result record of `computeWorld`. -/
structure WorldRes where
  x : ℝ
  y : ℝ
  angle : ℝ
  parentAngle : ℝ

/-- The pivot of a joint id, `JOINT_DEFS[id].pivot`.  The `none` branch is
unreachable for well-formed data (the source would throw a TypeError
there). -/
def pivotOf (data : RigData) (id : String) : ℝ × ℝ :=
  match data.JOINT_DEFS id with
  | some jd => jd.pivot
  | none => (0, 0)

/-- AdvancedIKSolver.computeWorld: fold the ancestor path, rotating each
pivot by the accumulated orientation; returns world position, the world
angle, and the orientation before the joint's own rotation. -/
noncomputable def computeWorld (data : RigData) (fuel : ℕ) (jointId : String)
    (rotations : String → ℝ) (center : Pt) : WorldRes :=
  let path := ancestorPath data.JOINT_DEFS fuel (some jointId)
  let st := path.foldl
    (fun (s : ℝ × ℝ × ℝ × ℝ) j =>
      if j = "root" then s else
      let pv := pivotOf data j
      let c := Real.cos s.2.2.1
      let sn := Real.sin s.2.2.1
      (s.1 + pv.1 * c - pv.2 * sn,
       s.2.1 + pv.1 * sn + pv.2 * c,
       s.2.2.1 + d2r (rotations j),
       s.2.2.1))
    (center.x, center.y, 0, 0)
  ⟨st.1, st.2.1, normA (r2d st.2.2.1), normA (r2d st.2.2.2)⟩

/-! ## The constrained FABRIK production solver (`solveIK_Advanced`) -/

/-- Soft reach damping (lines 61–75 of the solver): when the target's
distance from the chain root exceeds `softThreshold`, pull it inward
along the root→target ray to `softThreshold + dampedOverflow`. -/
noncomputable def softTarget (root0 target0 : Pt) (totalLen stretchRatio : ℝ) : Pt :=
  let distToTarget := hypot (target0.x - root0.x) (target0.y - root0.y)
  let stretchLimit := totalLen * stretchRatio
  let softDist := totalLen * 0.12
  let softThreshold := stretchLimit - softDist
  if softThreshold < distToTarget then
    let overflow := distToTarget - softThreshold
    let dampedOverflow := softDist * (1 - Real.exp (-overflow / softDist))
    let newDist := softThreshold + dampedOverflow
    let ratio := newDist / distToTarget
    ⟨root0.x + (target0.x - root0.x) * ratio, root0.y + (target0.y - root0.y) * ratio⟩
  else target0

/-- JS `String.prototype.includes`, via `splitOn`: `pat` occurs in `s`
iff splitting on it yields more than one piece. -/
def hasSub (s pat : String) : Bool := (s.splitOn pat).length != 1

/-- Natural bend bias (lines 81–108): for arm/leg chains of three or
more points, move the second chain point toward a direction rotated by
`bendDirection * curveFactor * 20°` off the root→target ray. -/
noncomputable def biasAdjust (chainId : String) (chainDef : ChainDef) (target : Pt)
    (chainLengths : List ℝ) (chainPoints : List Pt) : List Pt :=
  if 3 ≤ chainPoints.length then
    let isLeg := hasSub chainId "leg"
    let isArm := hasSub chainId "arm"
    if isLeg || isArm then
      let isRight := hasSub chainId "r_" || hasSub chainId "_r"
      let bendDirection : ℝ := if isRight then 1 else -1
      let curveFactor := orDefault chainDef.curveStrength 0.5
      let shoulder := chainPoints.getD 0 ⟨0, 0⟩
      let targetVecX := target.x - shoulder.x
      let targetVecY := target.y - shoulder.y
      let targetDist := hypot targetVecX targetVecY
      if 0.1 < targetDist then
        let initialBendAngle := d2r (bendDirection * curveFactor * 20)
        let rx := targetVecX * Real.cos initialBendAngle - targetVecY * Real.sin initialBendAngle
        let ry := targetVecX * Real.sin initialBendAngle + targetVecY * Real.cos initialBendAngle
        let l0 := chainLengths.getD 0 0
        chainPoints.set 1 ⟨shoulder.x + rx / targetDist * l0, shoulder.y + ry / targetDist * l0⟩
      else chainPoints
    else chainPoints
  else chainPoints

/-- SCEM-like stagnation escape (lines 124–131): on qualifying iterations
add a shrinking nudge to interior points.  `rand iter i` models the two
`Math.random()` draws for point `i` in iteration `iter`. -/
noncomputable def perturb (rand : ℕ → ℕ → Pt) (iterations : ℕ) (tolerance : ℝ)
    (iter : ℕ) (currentDist : ℝ) (pts : List Pt) : List Pt :=
  if 10 < iter ∧ iter % 5 = 0 ∧ tolerance * 5 < currentDist then
    let temp := 3.0 * (1 - (iter : ℝ) / (iterations : ℝ))
    pts.enum.map (fun p =>
      if 1 ≤ p.1 ∧ p.1 < pts.length - 1 then
        ⟨p.2.x + ((rand iter p.1).x - 0.5) * temp, p.2.y + ((rand iter p.1).y - 0.5) * temp⟩
      else p.2)
  else pts

/-- One index step of the backward pass (lines 135–146): re-project point
`i` at its segment length from the (already updated) point `i+1`. -/
noncomputable def backwardPass1 (lens : List ℝ) (pts : List Pt) (i : ℕ) : List Pt :=
  let next := pts.getD (i + 1) ⟨0, 0⟩
  let curr := pts.getD i ⟨0, 0⟩
  let dist := hypot (curr.x - next.x) (curr.y - next.y)
  if 0.0001 < dist then
    let ratio := lens.getD i 0 / dist
    pts.set i ⟨next.x + (curr.x - next.x) * ratio, next.y + (curr.y - next.y) * ratio⟩
  else pts

/-- Backward pass (lines 133–146): pin the effector point to the target,
then walk indices `n-2 … 0`. -/
noncomputable def backwardPass (lens : List ℝ) (target : Pt) (pts : List Pt) : List Pt :=
  (List.range (pts.length - 1)).reverse.foldl (backwardPass1 lens)
    (pts.set (pts.length - 1) target)

/-- One index step of the forward pass (lines 150–185): re-project point
`i+1` outward, applying the joint-limit projection of joint `i` when
`JOINT_LIMITS` has an entry for it. -/
noncomputable def forwardPass1 (data : RigData) (fuel : ℕ) (jointIds : List String)
    (lens : List ℝ) (currentRots : String → ℝ) (center : Pt)
    (pts : List Pt) (i : ℕ) : List Pt :=
  let curr := pts.getD i ⟨0, 0⟩
  let next := pts.getD (i + 1) ⟨0, 0⟩
  let dist := hypot (next.x - curr.x) (next.y - curr.y)
  if 0.0001 < dist then
    let ratio := lens.getD i 0 / dist
    let nx := curr.x + (next.x - curr.x) * ratio
    let ny := curr.y + (next.y - curr.y) * ratio
    let jointId := jointIds.getD i ""
    match data.JOINT_LIMITS jointId with
    | none => pts.set (i + 1) ⟨nx, ny⟩
    | some lim =>
      let pId := parentOf data.JOINT_DEFS jointId
      let pAngle :=
        if i = 0 then
          match pId with
          | some p => (computeWorld data fuel p currentRots center).angle
          | none => 0
        else
          r2d (atan2 ((pts.getD i ⟨0, 0⟩).y - (pts.getD (i - 1) ⟨0, 0⟩).y)
                     ((pts.getD i ⟨0, 0⟩).x - (pts.getD (i - 1) ⟨0, 0⟩).x))
      let angle := r2d (atan2 (ny - curr.y) (nx - curr.x))
      let local0 := normA (angle - pAngle)
      if local0 < lim.min ∨ lim.max < local0 then
        let local1 := clampR local0 lim.min lim.max
        let clampedGlobal := d2r (pAngle + local1)
        pts.set (i + 1) ⟨curr.x + Real.cos clampedGlobal * lens.getD i 0,
                         curr.y + Real.sin clampedGlobal * lens.getD i 0⟩
      else pts.set (i + 1) ⟨nx, ny⟩
  else pts

/-- Forward pass (lines 148–185): re-pin the base point, then walk
indices `0 … n-2`. -/
noncomputable def forwardPass (data : RigData) (fuel : ℕ) (jointIds : List String)
    (lens : List ℝ) (currentRots : String → ℝ) (center : Pt)
    (basePos : Pt) (pts : List Pt) : List Pt :=
  (List.range (pts.length - 1)).foldl (forwardPass1 data fuel jointIds lens currentRots center)
    (pts.set 0 basePos)

/-- End-effector error of a point configuration: distance from the last
chain point to the target (line 115). -/
noncomputable def effErr (target : Pt) (pts : List Pt) : ℝ :=
  let eff := pts.getD (pts.length - 1) ⟨0, 0⟩
  hypot (eff.x - target.x) (eff.y - target.y)

/-- Best-candidate update (lines 117–120); `none` models the initial
`bestDist = Infinity`, which any finite distance beats. -/
noncomputable def updBest (d : ℝ) (pts : List Pt) (bestDist : Option ℝ) (bestPts : List Pt) :
    ℝ × List Pt :=
  match bestDist with
  | none => (d, pts)
  | some b => if d < b then (d, pts) else (b, bestPts)

/-- The solver's main iteration loop (lines 113–186): measure the current
configuration, retain the best seen, break under tolerance, otherwise
perturb and run the two FABRIK passes (`step`).  Returns the best
configuration together with the list of configurations whose
end-effector error was evaluated (one per executed iteration). -/
noncomputable def ikLoop (step : ℕ → ℝ → List Pt → List Pt) (target : Pt) (tolerance : ℝ) :
    ℕ → ℕ → List Pt → Option ℝ → List Pt → List Pt × List (List Pt)
  | _, 0, _, _, bestPts => (bestPts, [])
  | iter, fuel + 1, pts, bestDist, bestPts =>
    let d := effErr target pts
    let bb := updBest d pts bestDist bestPts
    if d < tolerance then (bb.2, [pts])
    else
      let rec1 := ikLoop step target tolerance (iter + 1) fuel (step iter d pts) (some bb.1) bb.2
      (rec1.1, pts :: rec1.2)

/-- Pointwise update of a rotation dictionary (the write
`finalRots[jointId] = localAngle` on the `{ ...currentRots }` copy). -/
def setRot (rm : String → ℝ) (k : String) (v : ℝ) : String → ℝ :=
  fun j => if j = k then v else rm j

/-- The key written by iteration `i` of the angle-extraction loop. -/
def extractKey (jointIds : List String) (i : ℕ) : String := jointIds.getD i ""

/-- The local angle written by iteration `i` of the angle-extraction loop
(lines 196–218): normalized difference of the bone direction and the
parent's global angle, clamped to the joint's limits when present. -/
noncomputable def extractVal (data : RigData) (fuel : ℕ) (jointIds : List String)
    (fp : List Pt) (currentRots : String → ℝ) (center : Pt) (i : ℕ) : ℝ :=
  let jointId := extractKey jointIds i
  let pId := parentOf data.JOINT_DEFS jointId
  let parentGlobalAngle :=
    if i = 0 then
      match pId with
      | some p => if p ≠ "root" then (computeWorld data fuel p currentRots center).angle else 0
      | none => 0
    else
      r2d (atan2 ((fp.getD i ⟨0, 0⟩).y - (fp.getD (i - 1) ⟨0, 0⟩).y)
                 ((fp.getD i ⟨0, 0⟩).x - (fp.getD (i - 1) ⟨0, 0⟩).x))
  let boneGlobalAngle :=
    r2d (atan2 ((fp.getD (i + 1) ⟨0, 0⟩).y - (fp.getD i ⟨0, 0⟩).y)
               ((fp.getD (i + 1) ⟨0, 0⟩).x - (fp.getD i ⟨0, 0⟩).x))
  let localAngle := normA (boneGlobalAngle - parentGlobalAngle)
  match data.JOINT_LIMITS jointId with
  | some lim => clampR localAngle lim.min lim.max
  | none => localAngle

/-- Angle extraction (lines 190–221): starting from a copy of the input
rotations, write the local angle of every non-effector chain joint
(the loop breaks at the last index, skipping the effector). -/
noncomputable def extractRots (data : RigData) (fuel : ℕ) (jointIds : List String)
    (fp : List Pt) (currentRots : String → ℝ) (center : Pt) : String → ℝ :=
  (List.range (jointIds.length - 1)).foldl
    (fun rm i => setRot rm (extractKey jointIds i) (extractVal data fuel jointIds fp currentRots center i))
    currentRots

/-- AdvancedIKSolver.solveIK_Advanced, assembled from the pieces above.
`rand` models the `Math.random()` stream; `fuel` bounds the parent-link
walks of `computeWorld` (see `ancestorPath`). -/
noncomputable def solveIK_Advanced (data : RigData) (rand : ℕ → ℕ → Pt) (fuel : ℕ)
    (chainId : String) (targetX targetY : ℝ) (currentRots : String → ℝ) (center : Pt) :
    String → ℝ :=
  match data.IK_CHAINS chainId with
  | none => currentRots
  | some chainDef =>
    let jointIds := chainDef.joints
    if jointIds.length < 2 then currentRots
    else
      let chainPoints := jointIds.map (fun id =>
        let w := computeWorld data fuel id currentRots center
        (⟨w.x, w.y⟩ : Pt))
      let chainLengths := jointIds.tail.map (fun id =>
        hypot (pivotOf data id).1 (pivotOf data id).2)
      let totalChainLength := chainLengths.foldl (fun s l => s + l) 0
      let stretchRatio := orDefault chainDef.stretchRatio 1.1
      let root0 := chainPoints.getD 0 ⟨0, 0⟩
      let target := softTarget root0 ⟨targetX, targetY⟩ totalChainLength stretchRatio
      let iterations := 50
      let tolerance := (0.01 : ℝ)
      let initialBasePos := root0
      let chainPoints2 := biasAdjust chainId chainDef target chainLengths chainPoints
      let step := fun iter d pts =>
        forwardPass data fuel jointIds chainLengths currentRots center initialBasePos
          (backwardPass chainLengths target
            (perturb rand iterations tolerance iter d pts))
      let finalPoints := (ikLoop step target tolerance 0 iterations chainPoints2 none chainPoints2).1
      extractRots data fuel jointIds finalPoints currentRots center

/-! ## Matrix3 (math library listed in the repository README) -/

/-- Matrix3: a 3×3 matrix stored row-major as in the source's
`elements` array (`e0 … e8`). -/
structure M3 where
  e0 : ℝ
  e1 : ℝ
  e2 : ℝ
  e3 : ℝ
  e4 : ℝ
  e5 : ℝ
  e6 : ℝ
  e7 : ℝ
  e8 : ℝ

/-- Matrix3.identity. -/
def M3.identity : M3 := ⟨1, 0, 0, 0, 1, 0, 0, 0, 1⟩

/-- Matrix3.translation. -/
def M3.translation (x y : ℝ) : M3 := ⟨1, 0, 0, 0, 1, 0, x, y, 1⟩

/-- Matrix3.rotation. -/
noncomputable def M3.rotation (a : ℝ) : M3 :=
  ⟨Real.cos a, Real.sin a, 0, -Real.sin a, Real.cos a, 0, 0, 0, 1⟩

/-- Matrix3.multiply: `result[i*3+j] = Σ_k a[i*3+k] * b[k*3+j]`
(the source's triple loop, unrolled). -/
def M3.mul (a b : M3) : M3 :=
  ⟨a.e0 * b.e0 + a.e1 * b.e3 + a.e2 * b.e6,
   a.e0 * b.e1 + a.e1 * b.e4 + a.e2 * b.e7,
   a.e0 * b.e2 + a.e1 * b.e5 + a.e2 * b.e8,
   a.e3 * b.e0 + a.e4 * b.e3 + a.e5 * b.e6,
   a.e3 * b.e1 + a.e4 * b.e4 + a.e5 * b.e7,
   a.e3 * b.e2 + a.e4 * b.e5 + a.e5 * b.e8,
   a.e6 * b.e0 + a.e7 * b.e3 + a.e8 * b.e6,
   a.e6 * b.e1 + a.e7 * b.e4 + a.e8 * b.e7,
   a.e6 * b.e2 + a.e7 * b.e5 + a.e8 * b.e8⟩

/-- Matrix3.transformPoint (projective, dividing by `w`). -/
noncomputable def M3.transformPoint (m : M3) (p : Pt) : Pt :=
  let w := p.x * m.e2 + p.y * m.e5 + m.e8
  ⟨(p.x * m.e0 + p.y * m.e3 + m.e6) / w, (p.x * m.e1 + p.y * m.e4 + m.e7) / w⟩

/-- Matrix3.transformVector. -/
def M3.transformVector (m : M3) (v : Pt) : Pt :=
  ⟨v.x * m.e0 + v.y * m.e3, v.x * m.e1 + v.y * m.e4⟩

/-- Matrix3.determinant. -/
def M3.det (m : M3) : ℝ :=
  m.e0 * (m.e4 * m.e8 - m.e5 * m.e7) -
  m.e1 * (m.e3 * m.e8 - m.e5 * m.e6) +
  m.e2 * (m.e3 * m.e7 - m.e4 * m.e6)

/-- Matrix3.inverse: throws (`Except.error`) on a near-singular
determinant, otherwise builds the adjugate scaled by `1 / det`. -/
noncomputable def M3.inverse (m : M3) : Except String M3 :=
  let det := m.det
  if |det| < 1e-10 then Except.error "Matrix is not invertible"
  else
    let invDet := 1 / det
    Except.ok
      ⟨(m.e4 * m.e8 - m.e5 * m.e7) * invDet,
       (m.e2 * m.e7 - m.e1 * m.e8) * invDet,
       (m.e1 * m.e5 - m.e2 * m.e4) * invDet,
       (m.e5 * m.e6 - m.e3 * m.e8) * invDet,
       (m.e0 * m.e8 - m.e2 * m.e6) * invDet,
       (m.e2 * m.e3 - m.e0 * m.e5) * invDet,
       (m.e3 * m.e7 - m.e4 * m.e6) * invDet,
       (m.e1 * m.e6 - m.e0 * m.e7) * invDet,
       (m.e0 * m.e4 - m.e1 * m.e3) * invDet⟩

/-- Vector2.magnitude. -/
noncomputable def mag (p : Pt) : ℝ := Real.sqrt (p.x * p.x + p.y * p.y)

/-- Vector2.distance: `a.subtract(b).magnitude()`. -/
noncomputable def dist2 (a b : Pt) : ℝ := mag ⟨a.x - b.x, a.y - b.y⟩

/-- MathUtils.normalizeAngle: closed form of the source's two `while`
loops wrapping into `[-π, π]`. -/
noncomputable def normalizeAngle (a : ℝ) : ℝ :=
  if Real.pi < a then a - 2 * Real.pi * ⌈(a - Real.pi) / (2 * Real.pi)⌉
  else if a < -Real.pi then a + 2 * Real.pi * ⌈(-Real.pi - a) / (2 * Real.pi)⌉
  else a

/-! ## The Joint / JointChain entity model (joint tree with FK/IK state)

Joint instances form an object graph with parent back-references; the
embedding uses a heap `Nat → JointObj` indexed by joint identity, so
that the source's mutation order (and its null dereferences) are
preserved exactly. -/

/-- The `constraints` block of a Joint. -/
structure Constraints where
  enabled : Bool
  minAngle : ℝ
  maxAngle : ℝ
  preferredAngle : ℝ
  constraintStrength : ℝ

/-- Run-time state of one Joint instance (constructor fields that the
modelled operations can reach). -/
structure JointObj where
  position : Pt
  length : ℝ
  angle : ℝ
  targetAngle : ℝ
  fkEnabled : Bool
  minAngle : ℝ
  maxAngle : ℝ
  angleWrapping : Bool
  rotationSpeed : ℝ
  ikEnabled : Bool
  ikWeight : ℝ
  stiffness : ℝ
  damping : ℝ
  constraints : Constraints
  localT : M3
  worldT : M3
  children : List ℕ
  parent : Option ℕ

/-- The object heap: joint id to joint state. -/
def Heap : Type := ℕ → JointObj

/-- Point update of one joint object in the heap. -/
def hset (h : Heap) (i : ℕ) (f : JointObj → JointObj) : Heap :=
  fun k => if k = i then f (h k) else h k

/-- Joint.addChild: guard `child && child !== this`, push onto the
children list, set the child's parent back-reference. -/
def addChild (h : Heap) (selfId childId : ℕ) : Heap :=
  if childId = selfId then h
  else
    let h1 := hset h selfId (fun o => { o with children := o.children ++ [childId] })
    hset h1 childId (fun o => { o with parent := some selfId })

/-- Joint.removeChild: if the child is present (`indexOf > -1`), splice
it out and null its parent back-reference. -/
def removeChild (h : Heap) (selfId childId : ℕ) : Heap :=
  if childId ∈ (h selfId).children then
    let h1 := hset h selfId (fun o => { o with children := o.children.erase childId })
    hset h1 childId (fun o => { o with parent := none })
  else h

/-- The reattachment loop of JointChain.removeJoint:
`joint.children.forEach(child => joint.parent.addChild(child))`.
Each pass reads `joint.parent` afresh; a null parent is the JS
TypeError, surfaced as `Except.error`. -/
def reattach (h : Heap) (jointId : ℕ) : List ℕ → Except Unit Heap
  | [] => Except.ok h
  | c :: cs =>
    match (h jointId).parent with
    | none => Except.error ()
    | some p => reattach (addChild h p c) jointId cs

/-- JointChain.removeJoint: refuse the root, detach from the parent,
then reattach the children to the former parent. -/
def removeJoint (h : Heap) (rootId jointId : ℕ) : Except Unit Heap :=
  if jointId = rootId then Except.ok h
  else
    match (h jointId).parent with
    | none => Except.ok h
    | some p =>
      let h1 := removeChild h p jointId
      reattach h1 jointId ((h1 jointId).children)

/-- Joint.getJointCount on the heap (fuelled subtree walk): number of
joints in the subtree rooted at the worklist's ids. -/
def jointCount : ℕ → Heap → List ℕ → ℕ
  | 0, _, _ => 0
  | _, _, [] => 0
  | fuel + 1, h, i :: rest => 1 + jointCount fuel h ((h i).children ++ rest)

/-- JointChain.getAllJointsInOrder: depth-first preorder traversal
(`traverse` pushes the joint, then recurses into its children). -/
def preorder : ℕ → Heap → List ℕ → List ℕ
  | 0, _, _ => []
  | _, _, [] => []
  | fuel + 1, h, i :: rest => i :: preorder fuel h ((h i).children ++ rest)

/-- Joint.getWorldPosition: the cached world transform applied to the
origin. -/
noncomputable def worldPos (h : Heap) (i : ℕ) : Pt :=
  M3.transformPoint (h i).worldT ⟨0, 0⟩

/-- Joint.getEndEffectorPosition: the cached world transform applied to
`(length, 0)`. -/
noncomputable def endEffectorPos (h : Heap) (i : ℕ) : Pt :=
  M3.transformPoint (h i).worldT ⟨(h i).length, 0⟩

/-- Joint.updateTransform, run over a preorder worklist: recompute the
local transform from the current angle and position, compose with the
parent's (already refreshed) world transform, then recurse into the
children. -/
noncomputable def updateTransforms : ℕ → Heap → List ℕ → Heap
  | 0, h, _ => h
  | _, h, [] => h
  | fuel + 1, h, i :: rest =>
    let o := h i
    let lt := M3.mul (M3.rotation o.angle) (M3.translation o.position.x o.position.y)
    let wt :=
      match o.parent with
      | some p => M3.mul (h p).worldT lt
      | none => lt
    let h1 := hset h i (fun o2 => { o2 with localT := lt, worldT := wt })
    updateTransforms fuel h1 ((h i).children ++ rest)

/-- Joint.setAngle: write the target angle; normalize only when angle
wrapping is off. -/
noncomputable def setAngleOp (h : Heap) (i : ℕ) (a : ℝ) : Heap :=
  hset h i (fun o =>
    let o1 := { o with targetAngle := a }
    if o1.angleWrapping then o1
    else { o1 with targetAngle := normalizeAngle o1.targetAngle })

/-- The state of one JointChain. -/
structure ChainState where
  heap : Heap
  rootId : ℕ
  target : Pt
  iterations : ℕ
  threshold : ℝ
  ikStrength : ℝ

/-- JointChain.solveAnalytical: closed-form two-segment solve; a no-op
unless the ordered joint list has exactly two entries. -/
noncomputable def solveAnalytical (fuel : ℕ) (cs : ChainState) : ChainState :=
  let joints := preorder fuel cs.heap [cs.rootId]
  if joints.length ≠ 2 then cs
  else
    let j0 := joints.getD 0 0
    let j1 := joints.getD 1 0
    let l1 := (cs.heap j0).length
    let l2 := (cs.heap j1).length
    let rootPos := worldPos cs.heap cs.rootId
    let targetDist := dist2 rootPos cs.target
    if l1 + l2 < targetDist then
      let angle := atan2 (cs.target.y - rootPos.y) (cs.target.x - rootPos.x)
      { cs with heap := setAngleOp (setAngleOp cs.heap j0 angle) j1 0 }
    else if targetDist < |l1 - l2| then
      { cs with heap := setAngleOp (setAngleOp cs.heap j0 0) j1 0 }
    else
      let cosAngle2 := (targetDist * targetDist - l1 * l1 - l2 * l2) / (2 * l1 * l2)
      let angle2 := Real.arccos (clampR cosAngle2 (-1) 1)
      let cosAngle1 := (l1 * l1 + targetDist * targetDist - l2 * l2) / (2 * l1 * targetDist)
      let angle1 := Real.arccos (clampR cosAngle1 (-1) 1)
      let baseAngle := atan2 (cs.target.y - rootPos.y) (cs.target.x - rootPos.x)
      { cs with heap := setAngleOp (setAngleOp cs.heap j0 (baseAngle + angle1)) j1 angle2 }

/-- The body of Joint.updateIK's ancestor walk for one visited joint
(source lines 715–745): signed angle between the joint→effector and
joint→target vectors, constraint clamp, weight scale, damped blend.
`selfId` is the effector joint (`this`), `i` the visited joint. -/
noncomputable def updateIK_jointStep (h : Heap) (endEff target : Pt) (selfId i : ℕ) : Heap :=
  let jointPos := worldPos h i
  let toEnd : Pt := ⟨endEff.x - jointPos.x, endEff.y - jointPos.y⟩
  let toTarget : Pt := ⟨target.x - jointPos.x, target.y - jointPos.y⟩
  if 0 < mag toEnd ∧ 0 < mag toTarget then
    let currentAngle := atan2 toEnd.y toEnd.x
    let targetAngle := atan2 toTarget.y toTarget.x
    let rotation0 := targetAngle - currentAngle
    let rotation1 :=
      if (h i).constraints.enabled then
        clampR ((h i).angle + rotation0) (h i).constraints.minAngle (h i).constraints.maxAngle
          - (h i).angle
      else rotation0
    let rotation2 := rotation1 * ((h i).ikWeight * (h selfId).ikWeight)
    hset h i (fun o =>
      { o with targetAngle := o.angle + rotation2,
               angle := lerp o.angle (o.angle + rotation2) (1 - o.damping) })
  else h

/-- Joint.updateIK's ancestor walk (`while (current)`), fuelled: skip
joints with IK disabled, otherwise apply `updateIK_jointStep` and move
to the parent. -/
noncomputable def updateIK_walk (endEff target : Pt) (selfId : ℕ) :
    ℕ → Heap → Option ℕ → Heap
  | _, h, none => h
  | 0, h, some _ => h
  | fuel + 1, h, some i =>
    if (h i).ikEnabled then
      let h1 := updateIK_jointStep h endEff target selfId i
      updateIK_walk endEff target selfId fuel h1 ((h1 i).parent)
    else updateIK_walk endEff target selfId fuel h ((h i).parent)

/-- The iteration loop of Joint.updateIK: sweep, then stop early once the
(re-read) end effector is within the threshold. -/
noncomputable def updateIK_iter (target : Pt) (selfId : ℕ) (endEff : Pt)
    (walkFuel : ℕ) (threshold : ℝ) : ℕ → Heap → Heap
  | 0, h => h
  | n + 1, h =>
    let h1 := updateIK_walk endEff target selfId walkFuel h (some selfId)
    if dist2 (endEffectorPos h1 selfId) target < threshold then h1
    else updateIK_iter target selfId endEff walkFuel threshold n h1

/-- Joint.updateIK: early-out when IK is disabled, the joint is the
root, or the effector is already within the threshold; otherwise run
the CCD sweeps.  The end-effector position used inside the sweeps is
the one captured before the loop, as in the source. -/
noncomputable def updateIK (walkFuel : ℕ) (h : Heap) (selfId : ℕ) (target : Pt)
    (iterations : ℕ) (threshold : ℝ) : Heap :=
  if ¬((h selfId).ikEnabled = true) ∨ (h selfId).parent = none then h
  else
    let endEff := endEffectorPos h selfId
    let distance := dist2 endEff target
    if distance < threshold then h
    else updateIK_iter target selfId endEff walkFuel threshold iterations h

/-! ## Concrete instances used by witnesses and counterexamples -/

/-- A fresh Joint as built by the constructor
`new Joint(position, length)` (all tunables at their defaults). -/
noncomputable def mkJoint (pos : Pt) (len : ℝ) : JointObj :=
  { position := pos
    length := len
    angle := 0
    targetAngle := 0
    fkEnabled := true
    minAngle := -Real.pi
    maxAngle := Real.pi
    angleWrapping := true
    rotationSpeed := 0.1
    ikEnabled := true
    ikWeight := 1
    stiffness := 0.5
    damping := 0.1
    constraints := ⟨false, -(Real.pi * 0.75), Real.pi * 0.75, 0, 1⟩
    localT := M3.identity
    worldT := M3.identity
    children := []
    parent := none }

/-- A fixed stand-in for the `Math.random()` stream. -/
noncomputable def exRand : ℕ → ℕ → Pt := fun _ _ => ⟨0.5, 0.5⟩

/-- Joint limits used by the small example skeleton. -/
noncomputable def exLim : Limits := ⟨-10, 10⟩

/-- A two-joint chain definition (joint `a`, effector `b`). -/
def exChainC : ChainDef := ⟨["a", "b"], none, none⟩

/-- A degenerate one-joint chain definition. -/
def exChainC1 : ChainDef := ⟨["a"], none, none⟩

/-- A small skeleton: root sentinel, joint `a` under it, effector `b`
under `a`; chains `c` (two joints) and `c1` (one joint); limits on both
joints. -/
noncomputable def exData : RigData :=
  { JOINT_DEFS := fun j =>
      if j = "root" then some ⟨none, (0, 0)⟩
      else if j = "a" then some ⟨some "root", (0, 0)⟩
      else if j = "b" then some ⟨some "a", (10, 0)⟩
      else none
    IK_CHAINS := fun c =>
      if c = "c" then some exChainC
      else if c = "c1" then some exChainC1
      else none
    JOINT_LIMITS := fun j =>
      if j = "a" then some exLim
      else if j = "b" then some exLim
      else none }

/-- An input pose whose effector joint `b` sits far outside its limits. -/
noncomputable def exRots : String → ℝ := fun j => if j = "b" then 50 else 0

/-- A three-joint tree heap (root 0 → 1 → 2) as built by `addJoint`:
the failing input for joint removal. -/
noncomputable def h4 : Heap := fun i =>
  if i = 1 then { mkJoint ⟨60, 0⟩ 50 with parent := some 0, children := [2] }
  else if i = 2 then { mkJoint ⟨50, 0⟩ 40 with parent := some 1 }
  else { mkJoint ⟨0, 0⟩ 60 with children := [1] }

/-- A two-joint chain heap (root 0 of length 100 at the origin, child 1
of length 80 at pivot (100, 0)), before the transform refresh. -/
noncomputable def h5 : Heap := fun i =>
  if i = 1 then { mkJoint ⟨100, 0⟩ 80 with parent := some 0 }
  else { mkJoint ⟨0, 0⟩ 100 with children := [1] }

/-- The same chain after `updateTransform` has refreshed the cached
world transforms (as the frame loop does before any solve). -/
noncomputable def h5p : Heap := updateTransforms 3 h5 [0]

/-- The two-segment analytical-solver scenario of the spec: lengths 100
and 80, target at distance 120 from the root. -/
noncomputable def cs5 : ChainState :=
  { heap := h5p, rootId := 0, target := ⟨120, 0⟩, iterations := 10, threshold := 0.1,
    ikStrength := 1 }

/-- A single-joint chain (no children), on which the analytical solver
must be a no-op. -/
noncomputable def cs6 : ChainState :=
  { heap := fun _ => mkJoint ⟨0, 0⟩ 50, rootId := 0, target := ⟨0, 0⟩, iterations := 10,
    threshold := 0.1, ikStrength := 1 }

/-- A one-joint heap for the `updateIK` sweep-step witness. -/
noncomputable def h7 : Heap := fun _ => mkJoint ⟨0, 0⟩ 50

/-! ## Theorems -/

theorem rtz_of_nonneg {x : ℝ} (h : 0 ≤ x) : rtz x = ⌊x⌋ := if_pos h

theorem rtz_of_neg {x : ℝ} (h : x < 0) : rtz x = ⌈x⌉ := if_neg (not_le.mpr h)

theorem jsRem_nonneg_bounds {a b : ℝ} (hb : 0 < b) (ha : 0 ≤ a) :
    0 ≤ jsRem a b ∧ jsRem a b < b := by
  have hb0 : b ≠ 0 := ne_of_gt hb
  have hab : 0 ≤ a / b := div_nonneg ha hb.le
  unfold jsRem
  rw [rtz_of_nonneg hab]
  constructor
  · have h1 : (b : ℝ) * ⌊a / b⌋ ≤ b * (a / b) :=
      mul_le_mul_of_nonneg_left (Int.floor_le (a / b)) hb.le
    rw [mul_comm b (a / b), div_mul_cancel₀ a hb0] at h1
    linarith
  · have h2 : b * (a / b) < b * (⌊a / b⌋ + 1) :=
      mul_lt_mul_of_pos_left (Int.lt_floor_add_one (a / b)) hb
    rw [mul_comm b (a / b), div_mul_cancel₀ a hb0] at h2
    nlinarith

theorem jsRem_neg_bounds {a b : ℝ} (hb : 0 < b) (ha : a < 0) :
    -b < jsRem a b ∧ jsRem a b ≤ 0 := by
  have hb0 : b ≠ 0 := ne_of_gt hb
  have hab : a / b < 0 := div_neg_of_neg_of_pos ha hb
  unfold jsRem
  rw [rtz_of_neg hab]
  constructor
  · have h2 : b * (⌈a / b⌉ : ℝ) < b * (a / b + 1) :=
      mul_lt_mul_of_pos_left (Int.ceil_lt_add_one (a / b)) hb
    rw [mul_add, mul_comm b (a / b), div_mul_cancel₀ a hb0, mul_one] at h2
    linarith
  · have h1 : b * (a / b) ≤ b * (⌈a / b⌉ : ℝ) :=
      mul_le_mul_of_nonneg_left (Int.le_ceil (a / b)) hb.le
    rw [mul_comm b (a / b), div_mul_cancel₀ a hb0] at h1
    linarith

theorem jsRem_bounds {a b : ℝ} (hb : 0 < b) : -b < jsRem a b ∧ jsRem a b < b := by
  rcases le_or_lt 0 a with ha | ha
  · have h := jsRem_nonneg_bounds hb ha
    exact ⟨by linarith [h.1], h.2⟩
  · have h := jsRem_neg_bounds hb ha
    exact ⟨h.1, by linarith [h.2]⟩

/-- C8 (amended): `normA` returns a representative congruent to its
input mod 360, lying in the half-open interval `[-180, 180)` (not the
spec's `(-180, 180]`: see the counterexample at `a = 180`). -/
theorem C8_normA_range (a : ℝ) :
    (∃ k : ℤ, normA a = a - 360 * k) ∧ -180 ≤ normA a ∧ normA a < 180 := by
  have h360 : (0 : ℝ) < 360 := by norm_num
  have hr1 := jsRem_bounds (a := a) h360
  have hs : 0 ≤ jsRem a 360 + 540 := by linarith [hr1.1]
  have hr2 := jsRem_nonneg_bounds (a := jsRem a 360 + 540) h360 hs
  refine ⟨?_, ?_, ?_⟩
  · refine ⟨rtz (a / 360) + rtz ((jsRem a 360 + 540) / 360) - 1, ?_⟩
    unfold normA jsRem
    push_cast
    ring
  · unfold normA
    linarith [hr2.1]
  · unfold normA
    linarith [hr2.2]

/-- C8 counterexample: at input 180 the function returns -180, which is
congruent to 180 mod 360 but lies outside the claimed interval
`(-180, 180]`. -/
theorem C8_normA_cex : normA (180 : ℝ) = -180 ∧ (-180 : ℝ) ∉ Set.Ioc (-180 : ℝ) 180 := by
  constructor
  · have e1 : rtz ((180 : ℝ) / 360) = 0 := by
      rw [rtz_of_nonneg (by norm_num)]
      norm_num
    have e2 : jsRem (180 : ℝ) 360 = 180 := by
      unfold jsRem
      rw [e1]
      norm_num
    have e3 : rtz (((180 : ℝ) + 540) / 360) = 2 := by
      rw [rtz_of_nonneg (by norm_num)]
      norm_num
    unfold normA
    rw [e2]
    unfold jsRem
    rw [e3]
    norm_num
  · simp

theorem hypot_mul_right (a b c : ℝ) : hypot (a * c) (b * c) = hypot a b * |c| := by
  unfold hypot
  have h : a * c * (a * c) + b * c * (b * c) = (a * a + b * b) * (c * c) := by ring
  rw [h, Real.sqrt_mul (add_nonneg (mul_self_nonneg a) (mul_self_nonneg b)),
    Real.sqrt_mul_self_eq_abs]

/-- C1: soft reach damping.  When the target's distance `d` from the
chain root exceeds `softThreshold = totalLen·stretchRatio − totalLen·0.12`,
the effective target lies on the root→target ray at distance
`softThreshold + softDist·(1 − e^(−(d−softThreshold)/softDist))` from the
root; a target within the threshold is used unchanged.  (The chain has
positive total length and a stretch ratio of at least 0.12, as all the
skeleton's chains do.) -/
theorem C1_soft_reach (root0 target0 : Pt) (totalLen stretchRatio : ℝ)
    (hL : 0 < totalLen) (hSR : 0.12 ≤ stretchRatio) :
    (totalLen * stretchRatio - totalLen * 0.12 <
        hypot (target0.x - root0.x) (target0.y - root0.y) →
      hypot ((softTarget root0 target0 totalLen stretchRatio).x - root0.x)
            ((softTarget root0 target0 totalLen stretchRatio).y - root0.y)
        = totalLen * stretchRatio - totalLen * 0.12 +
          totalLen * 0.12 *
            (1 - Real.exp (-(hypot (target0.x - root0.x) (target0.y - root0.y) -
                (totalLen * stretchRatio - totalLen * 0.12)) / (totalLen * 0.12)))) ∧
    (hypot (target0.x - root0.x) (target0.y - root0.y) ≤
        totalLen * stretchRatio - totalLen * 0.12 →
      softTarget root0 target0 totalLen stretchRatio = target0) := by
  set d := hypot (target0.x - root0.x) (target0.y - root0.y) with hd
  set sTh := totalLen * stretchRatio - totalLen * 0.12 with hsTh
  have hsD : (0 : ℝ) < totalLen * 0.12 := mul_pos hL (by norm_num)
  have hsTh0 : 0 ≤ sTh := by
    have h1 : (0 : ℝ) ≤ totalLen * (stretchRatio - 0.12) :=
      mul_nonneg hL.le (by linarith)
    rw [mul_sub] at h1
    rw [hsTh]
    exact h1
  constructor
  · intro hgt
    have hd0 : 0 < d := lt_of_le_of_lt hsTh0 hgt
    have hexp : Real.exp (-(d - sTh) / (totalLen * 0.12)) ≤ 1 := by
      rw [Real.exp_le_one_iff]
      apply div_nonpos_of_nonpos_of_nonneg <;> linarith
    have hnew : 0 ≤ sTh + totalLen * 0.12 * (1 - Real.exp (-(d - sTh) / (totalLen * 0.12))) := by
      nlinarith
    simp only [softTarget]
    rw [← hd, ← hsTh, if_pos hgt]
    simp only
    rw [add_sub_cancel_left, add_sub_cancel_left, hypot_mul_right, ← hd,
      abs_of_nonneg (div_nonneg hnew hd0.le), mul_comm,
      div_mul_cancel₀ _ (ne_of_gt hd0)]
  · intro hle
    simp only [softTarget]
    rw [← hd, ← hsTh, if_neg (not_lt.mpr hle)]

/-- C1 witness: a chain of total length 100, stretch ratio 1.1, root at
the origin and target 300 away is pulled in to the damped distance. -/
theorem C1_soft_reach_witness :
    hypot ((softTarget ⟨0, 0⟩ ⟨300, 0⟩ 100 1.1).x - 0)
          ((softTarget ⟨0, 0⟩ ⟨300, 0⟩ 100 1.1).y - 0)
      = 100 * 1.1 - 100 * 0.12 +
        100 * 0.12 * (1 - Real.exp (-(hypot (300 - 0) (0 - 0) -
            (100 * 1.1 - 100 * 0.12)) / (100 * 0.12))) := by
  have h300 : hypot ((300 : ℝ) - 0) ((0 : ℝ) - 0) = 300 := by
    unfold hypot
    norm_num
    rw [show (90000 : ℝ) = 300 * 300 by norm_num, Real.sqrt_mul_self (by norm_num : (0:ℝ) ≤ 300)]
  exact (C1_soft_reach ⟨0, 0⟩ ⟨300, 0⟩ 100 1.1 (by norm_num) (by norm_num)).1
    (by rw [h300]; norm_num)

/-- C9: Matrix3.inverse throws exactly when the determinant's absolute
value is below 1e-10, and any returned inverse is an exact right
inverse (the embedding is over exact reals, so "up to numerical
tolerance" strengthens to equality). -/
theorem C9_matrix_inverse (m : M3) :
    (M3.inverse m = Except.error "Matrix is not invertible" ↔ |m.det| < 1e-10) ∧
    (∀ n, M3.inverse m = Except.ok n → M3.mul m n = M3.identity) := by
  by_cases hd : |m.det| < 1e-10
  · constructor
    · simp only [M3.inverse]
      rw [if_pos hd]
      simp [hd]
    · intro n hn
      simp only [M3.inverse] at hn
      rw [if_pos hd] at hn
      exact absurd hn (by simp)
  · have hdet : m.det ≠ 0 := by
      intro h0
      rw [h0] at hd
      norm_num at hd
    constructor
    · simp only [M3.inverse]
      rw [if_neg hd]
      simp [hd]
    · intro n hn
      simp only [M3.inverse] at hn
      rw [if_neg hd] at hn
      have h2 := Except.ok.inj hn
      subst h2
      unfold M3.mul M3.identity
      congr 1 <;> (simp only [M3.det] at hdet ⊢; field_simp; ring)

/-- C9 witness: the identity matrix passes the determinant gate and its
returned inverse multiplies back to the identity. -/
theorem C9_matrix_inverse_witness :
    M3.inverse M3.identity = Except.ok M3.identity ∧
    M3.mul M3.identity M3.identity = M3.identity := by
  have h1 : M3.inverse M3.identity = Except.ok M3.identity := by
    simp only [M3.inverse, M3.identity, M3.det]
    rw [if_neg (by norm_num)]
    norm_num [M3.mk.injEq]
  exact ⟨h1, (C9_matrix_inverse M3.identity).2 M3.identity h1⟩

/-- C7: one sweep step of Joint.updateIK on a joint with both the
joint→effector and joint→target vectors nonzero rotates the joint by
the signed angle between the two vectors, clamped (when constraints are
enabled) so the target angle stays within the constraint range, scaled
by the visited joint's `ikWeight` times the effector's `ikWeight`, and
applied by blending the angle toward the new target angle with
interpolation factor `1 − damping`. -/
theorem C7_ccd_step (h : Heap) (endEff target : Pt) (selfId i : ℕ)
    (hE : 0 < mag ⟨endEff.x - (worldPos h i).x, endEff.y - (worldPos h i).y⟩)
    (hT : 0 < mag ⟨target.x - (worldPos h i).x, target.y - (worldPos h i).y⟩) :
    updateIK_jointStep h endEff target selfId i i =
      { h i with
        targetAngle := (h i).angle +
          (if (h i).constraints.enabled then
              clampR ((h i).angle +
                  (atan2 (target.y - (worldPos h i).y) (target.x - (worldPos h i).x) -
                   atan2 (endEff.y - (worldPos h i).y) (endEff.x - (worldPos h i).x)))
                (h i).constraints.minAngle (h i).constraints.maxAngle - (h i).angle
            else
              atan2 (target.y - (worldPos h i).y) (target.x - (worldPos h i).x) -
              atan2 (endEff.y - (worldPos h i).y) (endEff.x - (worldPos h i).x)) *
          ((h i).ikWeight * (h selfId).ikWeight),
        angle := lerp (h i).angle
          ((h i).angle +
            (if (h i).constraints.enabled then
                clampR ((h i).angle +
                    (atan2 (target.y - (worldPos h i).y) (target.x - (worldPos h i).x) -
                     atan2 (endEff.y - (worldPos h i).y) (endEff.x - (worldPos h i).x)))
                  (h i).constraints.minAngle (h i).constraints.maxAngle - (h i).angle
              else
                atan2 (target.y - (worldPos h i).y) (target.x - (worldPos h i).x) -
                atan2 (endEff.y - (worldPos h i).y) (endEff.x - (worldPos h i).x)) *
            ((h i).ikWeight * (h selfId).ikWeight)) (1 - (h i).damping) } := by
  simp only [updateIK_jointStep]
  rw [if_pos ⟨hE, hT⟩]
  simp [hset]

/-- C7 witness: a concrete one-joint heap with the effector at (1,0) and
the target at (0,1); the step writes `angle_between * weight` into the
target angle. -/
theorem C7_ccd_step_witness :
    (updateIK_jointStep h7 ⟨1, 0⟩ ⟨0, 1⟩ 0 0 0).targetAngle =
      0 + (atan2 1 0 - atan2 0 1) * (1 * 1) := by
  have hw : worldPos h7 0 = ⟨0, 0⟩ := by
    simp only [worldPos, h7, mkJoint, M3.identity, M3.transformPoint]
    norm_num
  have hE : 0 < mag ⟨(1 : ℝ) - (worldPos h7 0).x, (0 : ℝ) - (worldPos h7 0).y⟩ := by
    rw [hw]
    simp only [mag]
    norm_num
  have hT : 0 < mag ⟨(0 : ℝ) - (worldPos h7 0).x, (1 : ℝ) - (worldPos h7 0).y⟩ := by
    rw [hw]
    simp only [mag]
    norm_num
  have hstep := C7_ccd_step h7 ⟨1, 0⟩ ⟨0, 1⟩ 0 0 hE hT
  rw [hstep, hw]
  simp only [h7, mkJoint]
  norm_num

/-- C4: on the three-joint tree 0 → 1 → 2, removing the middle joint 1
(which has a child) throws — `removeChild` nulls `joint.parent` before
the reattachment loop dereferences it — while removing the leaf 2
succeeds and drops the joint count from 3 to 2. -/
theorem C4_removeJoint_null_parent :
    removeJoint h4 0 1 = Except.error () ∧
    removeJoint h4 0 2 = Except.ok (removeChild h4 1 2) ∧
    jointCount 4 h4 [0] = 3 ∧
    jointCount 4 (removeChild h4 1 2) [0] = 2 :=
  ⟨rfl, rfl, rfl, rfl⟩

theorem clampR_bounds {mn mx : ℝ} (v : ℝ) (h : mn ≤ mx) :
    mn ≤ clampR v mn mx ∧ clampR v mn mx ≤ mx :=
  ⟨le_max_left _ _, max_le h (min_le_left _ _)⟩

theorem foldl_setRot_not_mem (key : ℕ → String) (val : ℕ → ℝ) (j : String) :
    ∀ (l : List ℕ) (rm : String → ℝ), (∀ i ∈ l, key i ≠ j) →
      (l.foldl (fun rm i => setRot rm (key i) (val i)) rm) j = rm j := by
  intro l
  induction l with
  | nil => intro rm _; rfl
  | cons a t ih =>
    intro rm hk
    simp only [List.foldl_cons]
    rw [ih _ (fun i hi => hk i (List.mem_cons_of_mem a hi))]
    simp only [setRot]
    rw [if_neg]
    intro hja
    exact hk a (List.mem_cons_self a t) hja.symm

theorem foldl_setRot_mem (key : ℕ → String) (val : ℕ → ℝ) (j : String) :
    ∀ (l : List ℕ) (rm : String → ℝ), (∃ i ∈ l, key i = j) →
      ∃ i ∈ l, key i = j ∧ (l.foldl (fun rm i => setRot rm (key i) (val i)) rm) j = val i := by
  intro l
  induction l with
  | nil =>
    intro rm h
    simp at h
  | cons a t ih =>
    intro rm hex
    by_cases ht : ∃ i ∈ t, key i = j
    · obtain ⟨i, hit, hkey, hval⟩ := ih (setRot rm (key a) (val a)) ht
      refine ⟨i, List.mem_cons_of_mem a hit, hkey, ?_⟩
      simpa using hval
    · have hka : key a = j := by
        obtain ⟨i, hi, hk⟩ := hex
        rcases List.mem_cons.mp hi with rfl | hit
        · exact hk
        · exact absurd ⟨i, hit, hk⟩ ht
      push_neg at ht
      refine ⟨a, List.mem_cons_self a t, hka, ?_⟩
      simp only [List.foldl_cons]
      rw [foldl_setRot_not_mem key val j t _ ht]
      simp only [setRot]
      rw [if_pos hka.symm]

theorem getD_mem_take (l : List String) (n i : ℕ) (h1 : i < n) (h2 : i < l.length) :
    l.getD i "" ∈ l.take n := by
  rw [List.getD_eq_getElem l "" h2, List.mem_iff_getElem]
  have hlen : i < (l.take n).length := by
    simp only [List.length_take, lt_min_iff]
    exact ⟨h1, h2⟩
  exact ⟨i, hlen, List.getElem_take l⟩

theorem mem_take_getD (l : List String) (n : ℕ) (j : String) (h : j ∈ l.take n) :
    ∃ i, i < n ∧ i < l.length ∧ l.getD i "" = j := by
  rw [List.mem_iff_getElem] at h
  obtain ⟨i, hi, hv⟩ := h
  have hlen := hi
  simp only [List.length_take, lt_min_iff] at hlen
  refine ⟨i, hlen.1, hlen.2, ?_⟩
  rw [List.getD_eq_getElem l "" hlen.2]
  rw [List.getElem_take] at hv
  exact hv

/-- Frame helper for the production solver: a joint that is not among
the written (non-effector) chain joints keeps its input rotation, on
every path through `solveIK_Advanced`. -/
theorem solveIK_keeps (data : RigData) (rand : ℕ → ℕ → Pt) (fuel : ℕ) (chainId : String)
    (tx ty : ℝ) (rots : String → ℝ) (center : Pt) (j : String)
    (hj : ∀ cdef, data.IK_CHAINS chainId = some cdef →
      j ∉ cdef.joints.take (cdef.joints.length - 1)) :
    solveIK_Advanced data rand fuel chainId tx ty rots center j = rots j := by
  unfold solveIK_Advanced
  cases hc : data.IK_CHAINS chainId with
  | none => rfl
  | some cdef =>
    simp only
    by_cases hlen : cdef.joints.length < 2
    · rw [if_pos hlen]
    · rw [if_neg hlen]
      unfold extractRots
      apply foldl_setRot_not_mem
      intro i hi hkey
      rw [List.mem_range] at hi
      refine hj cdef hc ?_
      rw [← hkey]
      exact getD_mem_take _ _ _ hi (by omega)

theorem extractRots_limits (data : RigData) (fuel : ℕ) (jointIds : List String)
    (fp : List Pt) (rots : String → ℝ) (center : Pt) (j : String) (lim : Limits)
    (hlim : data.JOINT_LIMITS j = some lim) (hmm : lim.min ≤ lim.max)
    (hmem : j ∈ jointIds.take (jointIds.length - 1)) :
    lim.min ≤ extractRots data fuel jointIds fp rots center j ∧
    extractRots data fuel jointIds fp rots center j ≤ lim.max := by
  obtain ⟨i, hin, hil, hkey⟩ := mem_take_getD _ _ _ hmem
  have hex : ∃ i2 ∈ List.range (jointIds.length - 1), extractKey jointIds i2 = j :=
    ⟨i, List.mem_range.mpr hin, hkey⟩
  obtain ⟨i2, hi2, hkey2, hval⟩ :=
    foldl_setRot_mem (extractKey jointIds)
      (extractVal data fuel jointIds fp rots center) j _ rots hex
  unfold extractRots
  rw [hval]
  simp only [extractVal]
  rw [hkey2, hlim]
  exact clampR_bounds _ hmm

/-- C10: the production solver never changes the rotation of a joint
outside the chain, nor of the chain's effector (its last joint); the
returned dictionary is a fresh copy (`{ ...currentRots }`), which the
pure embedding renders as the input function itself away from the
written keys. -/
theorem C10_no_mutation (data : RigData) (rand : ℕ → ℕ → Pt) (fuel : ℕ) (chainId : String)
    (tx ty : ℝ) (rots : String → ℝ) (center : Pt) (j : String)
    (hj : ∀ cdef, data.IK_CHAINS chainId = some cdef →
      j ∉ cdef.joints ∨ (cdef.joints.Nodup ∧ cdef.joints.getLast? = some j)) :
    solveIK_Advanced data rand fuel chainId tx ty rots center j = rots j := by
  apply solveIK_keeps
  intro cdef hc
  rcases hj cdef hc with hnot | ⟨hnd, hlast⟩
  · intro hmem
    exact hnot (List.take_subset _ _ hmem)
  · intro hmem
    rw [← List.dropLast_eq_take] at hmem
    have hne : cdef.joints ≠ [] := by
      intro h0
      rw [h0] at hlast
      simp at hlast
    have hl2 : cdef.joints.getLast hne = j := by
      rw [List.getLast?_eq_getLast cdef.joints hne] at hlast
      exact Option.some.inj hlast
    have hsplit := List.dropLast_append_getLast hne
    rw [← hsplit, List.nodup_append] at hnd
    exact hnd.2.2 hmem (by rw [hl2]; exact List.mem_singleton_self j)

/-- C10 witness: on the concrete two-joint chain `c`, a joint outside
the chain and the chain's effector both keep their input rotation. -/
theorem C10_no_mutation_witness :
    solveIK_Advanced exData exRand 8 "c" 200 0 exRots ⟨0, 0⟩ "zz" = exRots "zz" ∧
    solveIK_Advanced exData exRand 8 "c" 200 0 exRots ⟨0, 0⟩ "b" = exRots "b" := by
  constructor
  · refine C10_no_mutation exData exRand 8 "c" 200 0 exRots ⟨0, 0⟩ "zz" ?_
    intro cdef hc
    have h2 : (some exChainC : Option ChainDef) = some cdef := hc
    have h3 := Option.some.inj h2
    subst h3
    left
    decide
  · refine C10_no_mutation exData exRand 8 "c" 200 0 exRots ⟨0, 0⟩ "b" ?_
    intro cdef hc
    have h2 : (some exChainC : Option ChainDef) = some cdef := hc
    have h3 := Option.some.inj h2
    subst h3
    right
    exact ⟨by decide, by decide⟩

/-- C3 (amended): after `solveIK_Advanced`, every non-effector joint of
the solved chain that has configured limits (with `min ≤ max`) ends up
with a returned local angle inside `[min, max]`.  The effector itself
and the tree-model solvers enforce nothing (see the counterexample). -/
theorem C3_advanced_limits (data : RigData) (rand : ℕ → ℕ → Pt) (fuel : ℕ)
    (chainId : String) (tx ty : ℝ) (rots : String → ℝ) (center : Pt)
    (cdef : ChainDef) (j : String) (lim : Limits)
    (hc : data.IK_CHAINS chainId = some cdef)
    (h2 : ¬cdef.joints.length < 2)
    (hmem : j ∈ cdef.joints.take (cdef.joints.length - 1))
    (hlim : data.JOINT_LIMITS j = some lim)
    (hmm : lim.min ≤ lim.max) :
    lim.min ≤ solveIK_Advanced data rand fuel chainId tx ty rots center j ∧
    solveIK_Advanced data rand fuel chainId tx ty rots center j ≤ lim.max := by
  unfold solveIK_Advanced
  rw [hc]
  simp only
  rw [if_neg h2]
  exact extractRots_limits data fuel cdef.joints _ rots center j lim hlim hmm hmem

/-- C3 witness: joint `a` of chain `c` (a non-effector chain joint with
limits −10 … 10) obeys its limits after the solve. -/
theorem C3_advanced_limits_witness :
    exLim.min ≤ solveIK_Advanced exData exRand 8 "c" 200 0 exRots ⟨0, 0⟩ "a" ∧
    solveIK_Advanced exData exRand 8 "c" 200 0 exRots ⟨0, 0⟩ "a" ≤ exLim.max :=
  C3_advanced_limits exData exRand 8 "c" 200 0 exRots ⟨0, 0⟩ exChainC "a" exLim rfl
    (by decide) (by decide) rfl (by norm_num [exLim])

/-- C3 counterexample: the chain's effector `b` has limits −10 … 10 and
input rotation 50; after the solve its rotation is still 50, outside
the claimed range — the advanced solver skips the effector, and no
other solver clamps committed angles at all. -/
theorem C3_constraint_cex :
    (exData.JOINT_LIMITS "b").isSome = true ∧
    solveIK_Advanced exData exRand 8 "c" 200 0 exRots ⟨0, 0⟩ "b" = 50 ∧
    ¬(exLim.min ≤ (50 : ℝ) ∧ (50 : ℝ) ≤ exLim.max) := by
  refine ⟨rfl, ?_, ?_⟩
  · have h := solveIK_keeps exData exRand 8 "c" 200 0 exRots ⟨0, 0⟩ "b" ?_
    · rw [h]
      simp [exRots]
    · intro cdef hc
      have h2 : (some exChainC : Option ChainDef) = some cdef := hc
      have h3 := Option.some.inj h2
      subst h3
      decide
  · norm_num [exLim]

/-- C6: invalid chain shapes are no-ops — the analytical solver on a
chain whose ordered joint list is not exactly two joints returns the
state unchanged, and the production solver returns the input rotations
unchanged for an unknown chain id or a chain of fewer than two joints.
No failure is raised on any of these paths (the functions are total). -/
theorem C6_invalid_chain_noop :
    (∀ (fuel : ℕ) (cs : ChainState), (preorder fuel cs.heap [cs.rootId]).length ≠ 2 →
        solveAnalytical fuel cs = cs) ∧
    (∀ (data : RigData) (rand : ℕ → ℕ → Pt) (fuel : ℕ) (chainId : String) (tx ty : ℝ)
        (rots : String → ℝ) (center : Pt), data.IK_CHAINS chainId = none →
        solveIK_Advanced data rand fuel chainId tx ty rots center = rots) ∧
    (∀ (data : RigData) (rand : ℕ → ℕ → Pt) (fuel : ℕ) (chainId : String) (tx ty : ℝ)
        (rots : String → ℝ) (center : Pt) (cdef : ChainDef),
        data.IK_CHAINS chainId = some cdef → cdef.joints.length < 2 →
        solveIK_Advanced data rand fuel chainId tx ty rots center = rots) := by
  refine ⟨?_, ?_, ?_⟩
  · intro fuel cs hlen
    unfold solveAnalytical
    rw [if_pos hlen]
  · intro data rand fuel chainId tx ty rots center hc
    unfold solveIK_Advanced
    rw [hc]
  · intro data rand fuel chainId tx ty rots center cdef hc hlen
    unfold solveIK_Advanced
    rw [hc]
    simp only
    rw [if_pos hlen]

/-- C6 witness: a one-joint tree for the analytical solver, an unknown
chain id, and the one-joint chain `c1` are all left unchanged. -/
theorem C6_invalid_chain_noop_witness :
    solveAnalytical 2 cs6 = cs6 ∧
    solveIK_Advanced exData exRand 8 "zzz" 1 2 exRots ⟨0, 0⟩ = exRots ∧
    solveIK_Advanced exData exRand 8 "c1" 1 2 exRots ⟨0, 0⟩ = exRots := by
  refine ⟨C6_invalid_chain_noop.1 2 cs6 ?_,
    C6_invalid_chain_noop.2.1 exData exRand 8 "zzz" 1 2 exRots ⟨0, 0⟩ rfl,
    C6_invalid_chain_noop.2.2 exData exRand 8 "c1" 1 2 exRots ⟨0, 0⟩ exChainC1 rfl
      (by decide)⟩
  decide

theorem updBest_inv (target : Pt) (d : ℝ) (pts : List Pt) (bd : Option ℝ) (bp : List Pt)
    (hd : d = effErr target pts)
    (hinv : bd = none ∨ bd = some (effErr target bp)) :
    (updBest d pts bd bp).1 = effErr target (updBest d pts bd bp).2 := by
  rcases bd with _ | b
  · simpa [updBest] using hd
  · have hb : b = effErr target bp := by
      rcases hinv with h | h
      · exact absurd h (by simp)
      · exact Option.some.inj h
    simp only [updBest]
    by_cases hlt : d < b
    · rw [if_pos hlt]
      exact hd
    · rw [if_neg hlt]
      exact hb

theorem updBest_fst_le (d : ℝ) (pts : List Pt) (bd : Option ℝ) (bp : List Pt) :
    (updBest d pts bd bp).1 ≤ d := by
  rcases bd with _ | b
  · simp [updBest]
  · simp only [updBest]
    by_cases hlt : d < b
    · rw [if_pos hlt]
    · rw [if_neg hlt]
      exact not_lt.mp hlt

theorem updBest_snd_le (target : Pt) (d : ℝ) (pts : List Pt) (b : ℝ) (bp : List Pt)
    (hd : d = effErr target pts) (hb : b = effErr target bp) :
    effErr target (updBest d pts (some b) bp).2 ≤ effErr target bp := by
  simp only [updBest]
  by_cases hlt : d < b
  · rw [if_pos hlt]
    rw [← hd, ← hb]
    exact hlt.le
  · rw [if_neg hlt]

theorem ikLoop_best_aux (step : ℕ → ℝ → List Pt → List Pt) (target : Pt) (tol : ℝ) :
    ∀ (fuel iter : ℕ) (pts : List Pt) (bd : Option ℝ) (bp : List Pt),
      (bd = none ∨ bd = some (effErr target bp)) →
      (∀ c ∈ (ikLoop step target tol iter fuel pts bd bp).2,
          effErr target (ikLoop step target tol iter fuel pts bd bp).1 ≤ effErr target c) ∧
      (bd ≠ none →
          effErr target (ikLoop step target tol iter fuel pts bd bp).1 ≤ effErr target bp) := by
  intro fuel
  induction fuel with
  | zero =>
    intro iter pts bd bp _
    constructor
    · intro c hc
      simp [ikLoop] at hc
    · intro _
      simp [ikLoop]
  | succ n ih =>
    intro iter pts bd bp hinv
    by_cases htol : effErr target pts < tol
    · have heq : ikLoop step target tol iter (n + 1) pts bd bp =
          ((updBest (effErr target pts) pts bd bp).2, [pts]) := by
        simp only [ikLoop]
        rw [if_pos htol]
      rw [heq]
      have hbb := updBest_inv target (effErr target pts) pts bd bp rfl hinv
      constructor
      · intro c hc
        have hcp : c = pts := by simpa using hc
        subst hcp
        rw [← hbb]
        exact updBest_fst_le _ _ _ _
      · intro hbd
        rcases bd with _ | b
        · exact absurd rfl hbd
        · have hb : b = effErr target bp := by
            rcases hinv with h | h
            · exact absurd h (by simp)
            · exact Option.some.inj h
          exact updBest_snd_le target _ pts b bp rfl hb
    · have heq : ikLoop step target tol iter (n + 1) pts bd bp =
          ((ikLoop step target tol (iter + 1) n (step iter (effErr target pts) pts)
              (some (updBest (effErr target pts) pts bd bp).1)
              (updBest (effErr target pts) pts bd bp).2).1,
            pts :: (ikLoop step target tol (iter + 1) n (step iter (effErr target pts) pts)
              (some (updBest (effErr target pts) pts bd bp).1)
              (updBest (effErr target pts) pts bd bp).2).2) := by
        simp only [ikLoop]
        rw [if_neg htol]
      have hbb := updBest_inv target (effErr target pts) pts bd bp rfl hinv
      have hrec := ih (iter + 1) (step iter (effErr target pts) pts)
        (some (updBest (effErr target pts) pts bd bp).1)
        (updBest (effErr target pts) pts bd bp).2
        (Or.inr (by rw [hbb]))
      have hrb := hrec.2 (by simp)
      rw [heq]
      constructor
      · intro c hc
        rcases List.mem_cons.mp hc with hcp | hct
        · subst hcp
          refine le_trans hrb ?_
          rw [← hbb]
          exact updBest_fst_le _ _ _ _
        · exact hrec.1 c hct
      · intro hbd
        rcases bd with _ | b
        · exact absurd rfl hbd
        · have hb : b = effErr target bp := by
            rcases hinv with h | h
            · exact absurd h (by simp)
            · exact Option.some.inj h
          exact le_trans hrb (updBest_snd_le target _ pts b bp rfl hb)

/-- C2: the configuration returned by the solver's iteration loop (the
best-candidate tracker, started with `bestDist = Infinity`) has an
end-effector error no larger than that of any configuration whose error
was evaluated during the same solve call. -/
theorem C2_best_candidate (step : ℕ → ℝ → List Pt → List Pt) (target : Pt) (tol : ℝ)
    (fuel : ℕ) (pts0 : List Pt) :
    ∀ c ∈ (ikLoop step target tol 0 fuel pts0 none pts0).2,
      effErr target (ikLoop step target tol 0 fuel pts0 none pts0).1 ≤ effErr target c :=
  fun c hc => (ikLoop_best_aux step target tol fuel 0 pts0 none pts0 (Or.inl rfl)).1 c hc

/-- C2 witness: a one-point "chain" already on target; the single
evaluated configuration bounds the returned one. -/
theorem C2_best_candidate_witness :
    effErr ⟨0, 0⟩ (ikLoop (fun _ _ p => p) ⟨0, 0⟩ 1 0 1 [⟨0, 0⟩] none [⟨0, 0⟩]).1 ≤
      effErr ⟨0, 0⟩ [⟨0, 0⟩] := by
  apply C2_best_candidate
  have h0 : effErr (⟨0, 0⟩ : Pt) [⟨0, 0⟩] = 0 := by
    simp [effErr, hypot]
  have heq : (ikLoop (fun _ _ p => p) (⟨0, 0⟩ : Pt) 1 0 1 [⟨0, 0⟩] none [⟨0, 0⟩]).2 =
      [[⟨0, 0⟩]] := by
    simp only [ikLoop]
    rw [if_pos (by rw [h0]; norm_num)]
  rw [heq]
  exact List.mem_singleton_self _

theorem h5p_w0 : (h5p 0).worldT = M3.mk 1 0 0 0 1 0 0 0 1 := by
  have h : (h5p 0).worldT = M3.mul (M3.rotation 0) (M3.translation 0 0) := rfl
  rw [h]
  norm_num [M3.mul, M3.rotation, M3.translation, Real.cos_zero, Real.sin_zero, M3.mk.injEq]

theorem h5p_w1 : (h5p 1).worldT = M3.mk 1 0 0 0 1 0 100 0 1 := by
  have h : (h5p 1).worldT =
      M3.mul (M3.mul (M3.rotation 0) (M3.translation 0 0))
        (M3.mul (M3.rotation 0) (M3.translation 100 0)) := rfl
  rw [h]
  norm_num [M3.mul, M3.rotation, M3.translation, Real.cos_zero, Real.sin_zero, M3.mk.injEq]

theorem worldPos_h5p_0 : worldPos h5p 0 = ⟨0, 0⟩ := by
  simp only [worldPos]
  rw [h5p_w0]
  norm_num [M3.transformPoint, Pt.mk.injEq]

theorem dist2_root_target : dist2 (⟨0, 0⟩ : Pt) ⟨120, 0⟩ = 120 := by
  simp only [dist2, mag]
  norm_num
  rw [show (14400 : ℝ) = 120 * 120 by norm_num]
  exact Real.sqrt_mul_self (by norm_num)

theorem solveAnalytical_cs5_shape :
    ∃ A B, solveAnalytical 3 cs5 = { cs5 with heap := setAngleOp (setAngleOp h5p 0 A) 1 B } := by
  have hlen2 : ¬(preorder 3 cs5.heap [cs5.rootId]).length ≠ 2 := by decide
  have hpre : preorder 3 cs5.heap [cs5.rootId] = [0, 1] := rfl
  have hch : cs5.heap = h5p := rfl
  have hct : cs5.target = ⟨120, 0⟩ := rfl
  have hl0 : (h5p 0).length = 100 := rfl
  have hl1 : (h5p 1).length = 80 := rfl
  simp only [solveAnalytical]
  rw [if_neg hlen2, hpre]
  have hcr : cs5.rootId = 0 := rfl
  simp only [List.getD_cons_zero, List.getD_cons_succ, hch, hct, hcr, hl0, hl1,
    worldPos_h5p_0, dist2_root_target]
  rw [if_neg (show ¬(100 + 80 < (120 : ℝ)) by norm_num)]
  rw [if_neg (show ¬((120 : ℝ) < |100 - 80|) by norm_num)]
  exact ⟨_, _, rfl⟩

/-- C5: on the spec's own scenario — segment lengths 100 and 80, target
at distance 120 from the root — one call to the analytical solver does
not place the end effector at the target: `setAngle` only writes
`targetAngle`, the committed angles stay 0, and the end effector stays
at (180, 0), a distance of 60 from the target (and even committing the
assigned angles would miss, since both law-of-cosines angles are
assigned with a `+acos` sign). -/
theorem C5_analytical_misses :
    endEffectorPos (solveAnalytical 3 cs5).heap 1 = ⟨180, 0⟩ ∧
    dist2 (endEffectorPos (solveAnalytical 3 cs5).heap 1) cs5.target = 60 ∧
    ((solveAnalytical 3 cs5).heap 0).angle = 0 ∧
    ((solveAnalytical 3 cs5).heap 1).angle = 0 := by
  obtain ⟨A, B, heq⟩ := solveAnalytical_cs5_shape
  have hend : endEffectorPos (solveAnalytical 3 cs5).heap 1 = ⟨180, 0⟩ := by
    rw [heq]
    show M3.transformPoint (h5p 1).worldT ⟨80, 0⟩ = (⟨180, 0⟩ : Pt)
    rw [h5p_w1]
    norm_num [M3.transformPoint, Pt.mk.injEq]
  refine ⟨hend, ?_, ?_, ?_⟩
  · rw [hend]
    show dist2 (⟨180, 0⟩ : Pt) ⟨120, 0⟩ = 60
    simp only [dist2, mag]
    norm_num
    rw [show (3600 : ℝ) = 60 * 60 by norm_num]
    exact Real.sqrt_mul_self (by norm_num)
  · rw [heq]
    exact rfl
  · rw [heq]
    exact rfl
